import Mathlib

/-!
Verification of the per-IP rate limiter of the Store-watches backend
(`pkg/security/rate_limiter`): the token-bucket limiter, the per-IP
registry with lazy creation and idle-entry cleanup, and the HTTP
rate-limit middleware.  Time is modelled in seconds as rationals.
-/

namespace StoreWatches

/-- Configuration for a limiter, mirroring `models.LimiterConfig`
(`RequestPerSecond float64`, `Burst int`). -/
structure LimiterConfig where
  requestPerSecond : ℚ
  burst : ℤ
deriving DecidableEq

/-- Modelled from the spec: the state of one token bucket
(`golang.org/x/time/rate.Limiter`, a third-party dependency whose source
is not in the repository).  Per spec section 4.1 the state is the current
token count (bounded above by `burst`), the last-refill timestamp, the
refill rate `requestsPerSecond` and the capacity `burst`. -/
structure Limiter where
  rate : ℚ
  burst : ℤ
  tokens : ℚ
  lastRefill : ℚ
deriving DecidableEq

/-- Modelled from the spec: `rate.NewLimiter(r, b)` creates a bucket that
starts full at capacity `b`; `now` is the creation time. -/
def newLimiter (r : ℚ) (b : ℤ) (now : ℚ) : Limiter :=
  { rate := r, burst := b, tokens := (b : ℚ), lastRefill := now }

/-- Modelled from the spec: `Allow() -> bool` computes the elapsed time
since the last refill, adds `elapsed * requestsPerSecond` tokens capped at
`burst`, and if at least 1 token is available deducts 1 and returns true;
otherwise it returns false and leaves the state unchanged. -/
def Limiter.allow (l : Limiter) (now : ℚ) : Bool × Limiter :=
  let refilled := min (l.tokens + (now - l.lastRefill) * l.rate) (l.burst : ℚ)
  if 1 ≤ refilled then
    (true, { l with tokens := refilled - 1, lastRefill := now })
  else
    (false, l)

/-- Repeated immediate calls to `Allow` at one instant, returning the list
of decisions and the final bucket state. -/
def allowRepeat (l : Limiter) (now : ℚ) : ℕ → List Bool × Limiter
  | 0 => ([], l)
  | n + 1 =>
    let r := l.allow now
    let rest := allowRepeat r.2 now n
    (r.1 :: rest.1, rest.2)

/-- A sequence of `Allow` calls at the given timestamps. -/
def runAllows (l : Limiter) : List ℚ → List Bool × Limiter
  | [] => ([], l)
  | t :: ts =>
    let r := l.allow t
    let rest := runAllows r.2 ts
    (r.1 :: rest.1, rest.2)

/-! ## The per-IP registry (`DefaultRateLimiterManager`)

Limiter instances are Go heap pointers; we model the heap as a list of
`Limiter` values and a pointer as its index, so that pointer identity and
in-place mutation are expressible. -/

/-- `LimiterEntry` from `rate_limiter.go`: a limiter pointer plus the last
access time used by the cleanup sweeper. -/
structure LimiterEntry where
  limiter : ℕ
  lastSeen : ℚ
deriving DecidableEq

/-- `DefaultRateLimiterManager`: the default config applied to newly
created limiters, and the `sync.Map` from IP strings to entries
(`ipLimiterCache`), together with the heap of allocated limiters. -/
structure ManagerState where
  defaultConfig : LimiterConfig
  cache : List (String × LimiterEntry)
  heap : List Limiter
deriving DecidableEq

/-- `NewRateLimiterManager()`: empty cache with the given default config
(the source hard-codes 1.5 requests/second, burst 5). -/
def newRateLimiterManager (cfg : LimiterConfig) : ManagerState :=
  { defaultConfig := cfg, cache := [], heap := [] }

/-- `sync.Map.Load`: look a key up in the cache. -/
def lookupIP : List (String × LimiterEntry) → String → Option LimiterEntry
  | [], _ => none
  | p :: rest, ip => if p.1 = ip then some p.2 else lookupIP rest ip

/-- In-place update of an entry's `lastSeen` field through its pointer
(`limiterRecord.lastSeen = currentTime` in the source). -/
def touch (c : List (String × LimiterEntry)) (ip : String) (t : ℚ) :
    List (String × LimiterEntry) :=
  c.map fun p => if p.1 = ip then (p.1, { p.2 with lastSeen := t }) else p

/-- `GetRateLimiterForIP`: if an entry exists, update its `lastSeen` and
return its limiter; otherwise create a limiter from the current default
config and insert it with `LoadOrStore`.  Returns the limiter pointer and
the updated state. -/
def getRateLimiterForIP (m : ManagerState) (ip : String) (now : ℚ) :
    ℕ × ManagerState :=
  match lookupIP m.cache ip with
  | some e => (e.limiter, { m with cache := touch m.cache ip now })
  | none =>
    (m.heap.length,
     { m with
       heap := m.heap ++
         [newLimiter m.defaultConfig.requestPerSecond m.defaultConfig.burst now],
       cache := (ip, ⟨m.heap.length, now⟩) :: m.cache })

/-- `SetDefaultLimiterConfig`: replace the default config for future
entries. -/
def setDefaultLimiterConfig (m : ManagerState) (cfg : LimiterConfig) :
    ManagerState :=
  { m with defaultConfig := cfg }

/-- `CleanupInactiveLimiters(expirationDuration)`: delete every cache
entry whose `lastSeen` satisfies `now - lastSeen > expirationDuration`. -/
def cleanupInactiveLimiters (m : ManagerState) (expirationDuration now : ℚ) :
    ManagerState :=
  { m with
    cache := m.cache.filter fun p =>
      decide (¬ now - p.2.lastSeen > expirationDuration) }

/-- `DefaultRateLimiter.Allow(ip)`: fetch (or create) the IP's limiter and
call `Allow()` on it, mutating the bucket through its pointer. -/
def allowForIP (m : ManagerState) (ip : String) (now : ℚ) :
    Bool × ManagerState :=
  let r := getRateLimiterForIP m ip now
  let a := (r.2.heap.getD r.1 (newLimiter 0 0 0)).allow now
  (a.1, { r.2 with heap := r.2.heap.set r.1 a.2 })

/-- A sequence of `Allow(ip)` calls at the given timestamps, returning the
final manager state. -/
def allowSeq (m : ManagerState) (ip : String) : List ℚ → ManagerState
  | [] => m
  | t :: ts => allowSeq (allowForIP m ip t).2 ip ts

/-- `n` repeated `Allow(ip)` calls at one instant, returning the decisions
and the final manager state. -/
def allowRunN (m : ManagerState) (ip : String) (t : ℚ) :
    ℕ → List Bool × ManagerState
  | 0 => ([], m)
  | n + 1 =>
    let r := allowForIP m ip t
    let rest := allowRunN r.2 ip t n
    (r.1 :: rest.1, rest.2)

/-- States of the manager reachable from a fresh manager by the
operations the source exposes. -/
inductive Reachable : ManagerState → Prop where
  | init (cfg : LimiterConfig) : Reachable (newRateLimiterManager cfg)
  | get (m : ManagerState) (ip : String) (now : ℚ) :
      Reachable m → Reachable (getRateLimiterForIP m ip now).2
  | setCfg (m : ManagerState) (cfg : LimiterConfig) :
      Reachable m → Reachable (setDefaultLimiterConfig m cfg)
  | cleanup (m : ManagerState) (d now : ℚ) :
      Reachable m → Reachable (cleanupInactiveLimiters m d now)
  | allow (m : ManagerState) (ip : String) (now : ℚ) :
      Reachable m → Reachable (allowForIP m ip now).2

/-- Structural invariant of the registry: cache keys are distinct, each
entry holds a valid limiter pointer, and distinct entries hold distinct
limiter pointers. -/
def Inv (m : ManagerState) : Prop :=
  (m.cache.map Prod.fst).Nodup ∧
  (m.cache.map fun p => p.2.limiter).Nodup ∧
  ∀ p ∈ m.cache, p.2.limiter < m.heap.length

/-! ## Concurrent first-requests for one unseen IP (claim C1)

A small-step model of N goroutines simultaneously executing
`GetRateLimiterForIP` for the same IP not yet in the cache.  Each
goroutine performs the source's two atomic `sync.Map` operations: `Load`,
and (on a miss, after allocating a fresh limiter) `LoadOrStore`.  The
shared state is the cache slot for that IP plus an allocation counter
giving fresh limiter pointers. -/

/-- Program counter of one goroutine inside `GetRateLimiterForIP`. -/
inductive TPC where
  | start
  | missed (lim : ℕ)
  | done (ret : ℕ)
deriving DecidableEq

/-- Shared state of the race: the cache slot for the contended IP (`none`
while absent), the limiter allocation counter, and each goroutine's
program counter. -/
structure RaceState (n : ℕ) where
  reg : Option ℕ
  nextId : ℕ
  threads : Fin n → TPC

/-- Initial state: the IP is unseen and every goroutine is about to call
`GetRateLimiterForIP`. -/
def raceInit (n : ℕ) : RaceState n :=
  { reg := none, nextId := 0, threads := fun _ => TPC.start }

/-- One atomic step of one goroutine, following the source: `Load` hit
returns the stored limiter; `Load` miss allocates a fresh limiter;
`LoadOrStore` either stores the goroutine's own limiter (slot still
empty) and returns it, or returns the limiter stored by a rival. -/
inductive RaceStep {n : ℕ} : RaceState n → RaceState n → Prop where
  | loadHit (s : RaceState n) (i : Fin n) (l : ℕ) :
      s.threads i = TPC.start → s.reg = some l →
      RaceStep s { s with threads := Function.update s.threads i (TPC.done l) }
  | loadMiss (s : RaceState n) (i : Fin n) :
      s.threads i = TPC.start → s.reg = none →
      RaceStep s { s with
        nextId := s.nextId + 1,
        threads := Function.update s.threads i (TPC.missed s.nextId) }
  | storeWin (s : RaceState n) (i : Fin n) (k : ℕ) :
      s.threads i = TPC.missed k → s.reg = none →
      RaceStep s { s with
        reg := some k,
        threads := Function.update s.threads i (TPC.done k) }
  | storeLose (s : RaceState n) (i : Fin n) (k l : ℕ) :
      s.threads i = TPC.missed k → s.reg = some l →
      RaceStep s { s with threads := Function.update s.threads i (TPC.done l) }

/-- States reachable by interleaving the goroutines' steps in any
order. -/
inductive RaceReach {n : ℕ} : RaceState n → Prop where
  | init : RaceReach (raceInit n)
  | step (s s' : RaceState n) : RaceReach s → RaceStep s s' → RaceReach s'

/-! ## The `interface{}`-typed cache as the source has it (claim C10)

`ipLimiterCache` is a `sync.Map`, so values are `interface{}`; the source
recovers entries with the runtime type assertions
`record.(*LimiterEntry)` and `value.(*LimiterEntry)`, which panic on a
value of any other type.  This model keeps the dynamic typing: a panic is
`none`. -/

/-- A value of Go static type `interface{}` stored in the cache: either a
`*LimiterEntry` or a value of some other type. -/
inductive CacheValue where
  | entry (e : LimiterEntry)
  | other (tag : ℕ)
deriving DecidableEq

/-- The runtime type assertion `v.(*LimiterEntry)`: yields the entry, or
panics (`none`) if the value has another type. -/
def asEntry : CacheValue → Option LimiterEntry
  | CacheValue.entry e => some e
  | CacheValue.other _ => none

/-- The manager with the dynamically typed cache, as in the source. -/
structure RawState where
  defaultConfig : LimiterConfig
  cache : List (String × CacheValue)
  heap : List Limiter

/-- `sync.Map.Load` on the dynamically typed cache. -/
def lookupRaw : List (String × CacheValue) → String → Option CacheValue
  | [], _ => none
  | p :: rest, ip => if p.1 = ip then some p.2 else lookupRaw rest ip

/-- `GetRateLimiterForIP` on the dynamically typed cache, with the
source's type assertion on the `Load` result; `none` is a panic. -/
def rawGetRateLimiterForIP (m : RawState) (ip : String) (now : ℚ) :
    Option (ℕ × RawState) :=
  match lookupRaw m.cache ip with
  | some v =>
    match asEntry v with
    | some e =>
      some (e.limiter,
        { m with cache := m.cache.map fun p =>
            if p.1 = ip then (p.1, CacheValue.entry { e with lastSeen := now })
            else p })
    | none => none
  | none =>
    some (m.heap.length,
      { m with
        heap := m.heap ++
          [newLimiter m.defaultConfig.requestPerSecond m.defaultConfig.burst now],
        cache := (ip, CacheValue.entry ⟨m.heap.length, now⟩) :: m.cache })

/-- The `Range` body of `CleanupInactiveLimiters` over the dynamically
typed cache: assert each value, delete the stale ones; `none` is a
panic. -/
def sweepRaw : List (String × CacheValue) → ℚ → ℚ →
    Option (List (String × CacheValue))
  | [], _, _ => some []
  | p :: rest, d, now =>
    match asEntry p.2 with
    | none => none
    | some e =>
      match sweepRaw rest d now with
      | none => none
      | some c =>
        if now - e.lastSeen > d then some c else some (p :: c)

/-- `CleanupInactiveLimiters` on the dynamically typed cache. -/
def rawCleanupInactiveLimiters (m : RawState) (d now : ℚ) : Option RawState :=
  match sweepRaw m.cache d now with
  | some c => some { m with cache := c }
  | none => none

/-- `SetDefaultLimiterConfig` on the dynamically typed manager. -/
def rawSetDefaultLimiterConfig (m : RawState) (cfg : LimiterConfig) : RawState :=
  { m with defaultConfig := cfg }

/-- States of the dynamically typed manager reachable from a fresh
manager by non-panicking runs of the source's operations. -/
inductive RawReachable : RawState → Prop where
  | init (cfg : LimiterConfig) : RawReachable ⟨cfg, [], []⟩
  | get (m : RawState) (ip : String) (now : ℚ) (r : ℕ × RawState) :
      RawReachable m → rawGetRateLimiterForIP m ip now = some r →
      RawReachable r.2
  | setCfg (m : RawState) (cfg : LimiterConfig) :
      RawReachable m → RawReachable (rawSetDefaultLimiterConfig m cfg)
  | cleanup (m : RawState) (d now : ℚ) (m' : RawState) :
      RawReachable m → rawCleanupInactiveLimiters m d now = some m' →
      RawReachable m'

/-! ## The HTTP rate-limit middleware (claim C7)

The middleware extracts the client IP, asks the limiter, and either
forwards to the next handler or rejects.  We record which status the
middleware itself writes (`none` when it writes nothing) and whether the
next handler ran; `allow` abstracts the limiter's decision for the
extracted client IP. -/

/-- `AppError` from `pkg/errors`: an HTTP status code with a message. -/
structure AppError where
  code : ℕ
  message : String
deriving DecidableEq

/-- `http.StatusTooManyRequests`. -/
def statusTooManyRequests : ℕ := 429

/-- `errors.NewTooManyRequestsError`: constructs (and only constructs) a
429 `AppError` value. -/
def newTooManyRequestsError (message : String) : AppError :=
  { code := statusTooManyRequests, message := message }

/-- Observable outcome of one request through the middleware: the status
the middleware wrote to the `ResponseWriter`, if any, and whether
`next.ServeHTTP` was invoked. -/
structure MWOutcome where
  wroteStatus : Option ℕ
  invokedNext : Bool
deriving DecidableEq

/-- `middleware.RateLimitMiddleware` (rate_limit.go) and the
`ratelimiter.RateLimitMiddleware` variant at middleware.go:34-45: on a
denied request, `http.Error(w, "Too many requests", 429)` and return;
otherwise forward to `next`. -/
def rateLimitMiddleware (allow : String → Bool) (clientIP : String) :
    MWOutcome :=
  if ! allow clientIP then
    { wroteStatus := some statusTooManyRequests, invokedNext := false }
  else
    { wroteStatus := none, invokedNext := true }

/-- The `ratelimiter.RateLimitMiddleware` variant at middleware.go:99-110:
on a denied request it evaluates `errors.NewTooManyRequestsError("Too many
Requests")`, discards the resulting value, and returns without writing
anything to the `ResponseWriter`. -/
def rateLimitMiddlewarePkg (allow : String → Bool) (clientIP : String) :
    MWOutcome :=
  if ! allow clientIP then
    let _discarded := newTooManyRequestsError "Too many Requests"
    { wroteStatus := none, invokedNext := false }
  else
    { wroteStatus := none, invokedNext := true }

theorem allow_false_frame (l : Limiter) (now : ℚ)
    (h : (l.allow now).1 = false) : (l.allow now).2 = l := by
  unfold Limiter.allow at *
  by_cases hc : 1 ≤ min (l.tokens + (now - l.lastRefill) * l.rate) (l.burst : ℚ) <;>
    simp [hc] at h ⊢

theorem allow_immediate (l : Limiter) (t : ℚ) (hb : l.tokens ≤ (l.burst : ℚ))
    (hl : l.lastRefill = t) :
    l.allow t = if 1 ≤ l.tokens then
        (true, { l with tokens := l.tokens - 1 })
      else (false, l) := by
  unfold Limiter.allow
  rw [hl]
  simp [min_eq_left, hb]

theorem allowRepeat_immediate (t : ℚ) (n : ℕ) :
    ∀ (c : ℕ) (l : Limiter), l.tokens = (c : ℚ) → l.lastRefill = t →
      (c : ℚ) ≤ (l.burst : ℚ) →
      allowRepeat l t n =
        (List.replicate (min n c) true ++ List.replicate (n - c) false,
         { l with tokens := ((c - min n c : ℕ) : ℚ) }) := by
  induction n with
  | zero =>
    intro c l htok hlast hcb
    cases l
    simp_all [allowRepeat]
  | succ n ih =>
    intro c l htok hlast hcb
    cases c with
    | zero =>
      have hallow : l.allow t = (false, l) := by
        rw [allow_immediate l t (by rw [htok]; exact_mod_cast hcb) hlast]
        rw [htok]
        norm_num
      have := ih 0 l htok hlast hcb
      simp only [allowRepeat, hallow] at *
      rw [this]
      simp [List.replicate_succ]
    | succ c' =>
      have h1 : (1 : ℚ) ≤ l.tokens := by
        rw [htok]
        exact_mod_cast Nat.one_le_iff_ne_zero.mpr (Nat.succ_ne_zero c')
      have hallow : l.allow t = (true, { l with tokens := l.tokens - 1 }) := by
        rw [allow_immediate l t (by rw [htok]; exact_mod_cast hcb) hlast]
        simp [h1]
      have htok' : (⟨l.rate, l.burst, l.tokens - 1, l.lastRefill⟩ : Limiter).tokens
          = (c' : ℚ) := by
        simp only [htok]
        push_cast
        ring
      have hrec := ih c' ⟨l.rate, l.burst, l.tokens - 1, l.lastRefill⟩ htok'
        (by simpa using hlast)
        (by
          simp only
          refine le_trans ?_ hcb
          exact_mod_cast Nat.le_succ c')
      simp only [allowRepeat, hallow]
      cases l
      simp only at hrec ⊢
      rw [hrec]
      simp [Nat.succ_min_succ, Nat.succ_sub_succ, List.replicate_succ]

theorem count_replicate_append (k m : ℕ) :
    (List.replicate k true ++ List.replicate m false).count true = k := by
  simp [List.count_append, List.count_replicate]

theorem allow_true_iff (l : Limiter) (now : ℚ) :
    (l.allow now).1 = true ↔
      1 ≤ min (l.tokens + (now - l.lastRefill) * l.rate) ((l.burst : ℚ)) := by
  unfold Limiter.allow
  by_cases hc : 1 ≤ min (l.tokens + (now - l.lastRefill) * l.rate) ((l.burst : ℚ)) <;>
    simp [hc]

theorem allow_true_state (l : Limiter) (now : ℚ)
    (h : (l.allow now).1 = true) :
    (l.allow now).2 =
      { l with
        tokens := min (l.tokens + (now - l.lastRefill) * l.rate) ((l.burst : ℚ)) - 1,
        lastRefill := now } := by
  unfold Limiter.allow at *
  by_cases hc : 1 ≤ min (l.tokens + (now - l.lastRefill) * l.rate) ((l.burst : ℚ)) <;>
    simp [hc] at h ⊢

/-- C2: `Allow()` adds `elapsed * R` tokens capped at `burst`, admits
exactly when at least 1 token is then available, deducting exactly 1, and
on rejection leaves the bucket unchanged; and an exhausted bucket with
rate `R > 0` and `burst ≥ 1`, after waiting `1/R` seconds, admits exactly
one further request and rejects the next immediate one. -/
theorem C2_allow_refill (R t : ℚ) (B : ℤ) (hR : 0 < R) (hB : 1 ≤ B) :
    (∀ (l : Limiter) (now : ℚ),
        ((l.allow now).1 = true ↔
          1 ≤ min (l.tokens + (now - l.lastRefill) * l.rate) ((l.burst : ℚ))) ∧
        ((l.allow now).1 = true →
          (l.allow now).2 =
            { l with
              tokens :=
                min (l.tokens + (now - l.lastRefill) * l.rate) ((l.burst : ℚ)) - 1,
              lastRefill := now }) ∧
        ((l.allow now).1 = false → (l.allow now).2 = l)) ∧
    (Limiter.allow ⟨R, B, 0, t⟩ (t + 1 / R)).1 = true ∧
    ((Limiter.allow ⟨R, B, 0, t⟩ (t + 1 / R)).2.allow (t + 1 / R)).1 = false := by
  have hR0 : R ≠ 0 := ne_of_gt hR
  have hBq : (1 : ℚ) ≤ (B : ℚ) := by exact_mod_cast hB
  have h1 : t + 1 / R - t = 1 / R := by ring
  have step1 : Limiter.allow ⟨R, B, 0, t⟩ (t + 1 / R) = (true, ⟨R, B, 0, t + 1 / R⟩) := by
    unfold Limiter.allow
    simp only [h1, zero_add, one_div_mul_cancel hR0, min_eq_left hBq]
    norm_num
  refine ⟨fun l now => ⟨allow_true_iff l now, allow_true_state l now,
      allow_false_frame l now⟩, ?_, ?_⟩
  · rw [step1]
  · rw [step1]
    unfold Limiter.allow
    have hB0 : (0 : ℚ) ≤ (B : ℚ) := le_trans zero_le_one hBq
    simp [min_eq_left hB0]
    norm_num

theorem C2_witness :
    (0 : ℚ) < 2 ∧ (1 : ℤ) ≤ 1 ∧
    (Limiter.allow ⟨2, 1, 0, 0⟩ (0 + 1 / 2)).1 = true ∧
    ((Limiter.allow ⟨2, 1, 0, 0⟩ (0 + 1 / 2)).2.allow (0 + 1 / 2)).1 = false :=
  ⟨by norm_num, by decide,
    (C2_allow_refill 2 0 1 (by norm_num) (by decide)).2.1,
    (C2_allow_refill 2 0 1 (by norm_num) (by decide)).2.2⟩

/-- C3: a freshly created bucket with capacity `B > 0` starts full: the
first `B` immediate calls to `Allow()` all return true and the
`(B+1)`-th immediate call returns false. -/
theorem C3_fresh_bucket (R t : ℚ) (B : ℤ) (hB : 0 < B) :
    (allowRepeat (newLimiter R B t) t B.toNat).1 = List.replicate B.toNat true ∧
    (allowRepeat (newLimiter R B t) t (B.toNat + 1)).1 =
      List.replicate B.toNat true ++ [false] := by
  have hc : ((B.toNat : ℕ) : ℚ) = (B : ℚ) := by
    exact_mod_cast Int.toNat_of_nonneg hB.le
  have htok : (newLimiter R B t).tokens = ((B.toNat : ℕ) : ℚ) := by
    simp [newLimiter, hc]
  have hcb : ((B.toNat : ℕ) : ℚ) ≤ ((newLimiter R B t).burst : ℚ) := by
    simp [newLimiter, hc]
  constructor
  · rw [allowRepeat_immediate t B.toNat B.toNat (newLimiter R B t) htok rfl hcb]
    simp
  · rw [allowRepeat_immediate t (B.toNat + 1) B.toNat (newLimiter R B t) htok rfl hcb]
    have hmin : min (B.toNat + 1) B.toNat = B.toNat := min_eq_right (Nat.le_succ _)
    simp [hmin]

theorem C3_witness :
    (0 : ℤ) < 2 ∧
    (allowRepeat (newLimiter 1 2 0) 0 (Int.toNat 2)).1 =
      List.replicate (Int.toNat 2) true ∧
    (allowRepeat (newLimiter 1 2 0) 0 (Int.toNat 2 + 1)).1 =
      List.replicate (Int.toNat 2) true ++ [false] :=
  ⟨by decide, (C3_fresh_bucket 1 0 2 (by decide)).1, (C3_fresh_bucket 1 0 2 (by decide)).2⟩

theorem runAllows_cons (l : Limiter) (t : ℚ) (ts : List ℚ) :
    runAllows l (t :: ts) =
      ((l.allow t).1 :: (runAllows (l.allow t).2 ts).1,
       (runAllows (l.allow t).2 ts).2) := rfl

theorem allow_burst_nonpos (l : Limiter) (now : ℚ) (hB : l.burst ≤ 0) :
    l.allow now = (false, l) := by
  unfold Limiter.allow
  have hBq : ((l.burst : ℤ) : ℚ) ≤ 0 := by exact_mod_cast hB
  have hmin := min_le_right (l.tokens + (now - l.lastRefill) * l.rate) ((l.burst : ℚ))
  have : ¬ (1 ≤ min (l.tokens + (now - l.lastRefill) * l.rate) ((l.burst : ℚ))) := by
    intro h
    linarith
  simp [this]

theorem allow_stale (l : Limiter) (now : ℚ) (hrate : l.rate ≤ 0)
    (htok : l.tokens < 1) (hnow : l.lastRefill ≤ now) :
    l.allow now = (false, l) := by
  unfold Limiter.allow
  have hneg : (now - l.lastRefill) * l.rate ≤ 0 :=
    mul_nonpos_of_nonneg_of_nonpos (by linarith) hrate
  have hmin := min_le_left (l.tokens + (now - l.lastRefill) * l.rate) ((l.burst : ℚ))
  have : ¬ (1 ≤ min (l.tokens + (now - l.lastRefill) * l.rate) ((l.burst : ℚ))) := by
    intro h
    linarith
  simp [this]

theorem runAllows_rate_nonpos :
    ∀ (ts : List ℚ) (l : Limiter), l.rate ≤ 0 → ts.Sorted (· ≤ ·) →
      (∀ x ∈ ts, l.lastRefill ≤ x) →
      ((runAllows l ts).1.count true : ℚ) + max (runAllows l ts).2.tokens 0 ≤
        max l.tokens 0 := by
  intro ts
  induction ts with
  | nil => intro l _ _ _; simp [runAllows]
  | cons t ts ih =>
    intro l hrate hsort hge
    have hne : l.lastRefill ≤ t := hge t (List.mem_cons_self t ts)
    rw [List.sorted_cons] at hsort
    have hfst : (runAllows l (t :: ts)).1 =
        (l.allow t).1 :: (runAllows (l.allow t).2 ts).1 := rfl
    have hsnd : (runAllows l (t :: ts)).2 = (runAllows (l.allow t).2 ts).2 := rfl
    by_cases hb : (l.allow t).1 = true
    · have hstate := allow_true_state l t hb
      have h1 := (allow_true_iff l t).1 hb
      have hrefle :
          min (l.tokens + (t - l.lastRefill) * l.rate) ((l.burst : ℚ)) ≤ l.tokens := by
        have hneg : (t - l.lastRefill) * l.rate ≤ 0 :=
          mul_nonpos_of_nonneg_of_nonpos (by linarith) hrate
        have := min_le_left (l.tokens + (t - l.lastRefill) * l.rate) ((l.burst : ℚ))
        linarith
      have ihl := ih (l.allow t).2 (by rw [hstate]; exact hrate) hsort.2
        (by
          intro x hx
          rw [hstate]
          exact hsort.1 x hx)
      have hmax : max (l.allow t).2.tokens 0 =
          min (l.tokens + (t - l.lastRefill) * l.rate) ((l.burst : ℚ)) - 1 := by
        rw [hstate]
        show max (min (l.tokens + (t - l.lastRefill) * l.rate) ((l.burst : ℚ)) - 1) 0 = _
        exact max_eq_left (by linarith)
      rw [hmax] at ihl
      rw [hfst, hsnd, hb]
      have hcount : List.count true (true :: (runAllows (l.allow t).2 ts).1) =
          List.count true (runAllows (l.allow t).2 ts).1 + 1 := by
        simp
      rw [hcount]
      push_cast
      have hlm := le_max_left l.tokens (0 : ℚ)
      linarith
    · have hfalse : (l.allow t).1 = false := by
        cases hc : (l.allow t).1
        · rfl
        · exact absurd hc hb
      have hframe := allow_false_frame l t hfalse
      have ihl := ih l hrate hsort.2
        (fun x hx => hge x (List.mem_cons_of_mem t hx))
      rw [hfst, hsnd, hframe, hfalse]
      have hcount : List.count true (false :: (runAllows l ts).1) =
          List.count true (runAllows l ts).1 := by
        simp
      rw [hcount]
      exact ihl

theorem runAllows_burst_nonpos :
    ∀ (ts : List ℚ) (l : Limiter), l.burst ≤ 0 →
      (runAllows l ts).1.count true = 0 ∧ (runAllows l ts).2 = l := by
  intro ts
  induction ts with
  | nil => intro l _; simp [runAllows]
  | cons t ts ih =>
    intro l hB
    have hstep := allow_burst_nonpos l t hB
    have ihl := ih l hB
    have hfst : (runAllows l (t :: ts)).1 =
        (l.allow t).1 :: (runAllows (l.allow t).2 ts).1 := rfl
    have hsnd : (runAllows l (t :: ts)).2 = (runAllows (l.allow t).2 ts).2 := rfl
    rw [hfst, hsnd, hstep]
    simp [ihl.1, ihl.2]

/-- C9: a bucket whose rate is `≤ 0` never refills — over any
chronological sequence of calls it admits at most its initial `burst`,
and once below one token every later call returns false with the state
unchanged (no crash); a bucket whose `burst` is `≤ 0` never admits any
request. -/
theorem C9_degenerate_config (R R2 t t2 : ℚ) (B B2 : ℤ) (ts ts2 : List ℚ)
    (l : Limiter) (now : ℚ)
    (hR : R ≤ 0) (hsorted : ts.Sorted (· ≤ ·)) (hts : ∀ x ∈ ts, t ≤ x)
    (hl : l.rate ≤ 0) (hltok : l.tokens < 1) (hlnow : l.lastRefill ≤ now)
    (hB2 : B2 ≤ 0) :
    ((runAllows (newLimiter R B t) ts).1.count true ≤ B.toNat) ∧
    (l.allow now = (false, l)) ∧
    ((runAllows (newLimiter R2 B2 t2) ts2).1.count true = 0) := by
  refine ⟨?_, allow_stale l now hl hltok hlnow,
    (runAllows_burst_nonpos ts2 (newLimiter R2 B2 t2) (by simp [newLimiter, hB2])).1⟩
  have hbound := runAllows_rate_nonpos ts (newLimiter R B t)
    (by simp [newLimiter, hR]) hsorted (by intro x hx; simpa [newLimiter] using hts x hx)
  have hmaxnn : (0 : ℚ) ≤ max (runAllows (newLimiter R B t) ts).2.tokens 0 :=
    le_max_right _ _
  have htokmax : max ((newLimiter R B t).tokens) 0 = ((B.toNat : ℕ) : ℚ) := by
    have : ((B.toNat : ℕ) : ℤ) = max B 0 := Int.toNat_eq_max B
    have hq : ((B.toNat : ℕ) : ℚ) = max ((B : ℤ) : ℚ) 0 := by
      exact_mod_cast congrArg (fun z : ℤ => (z : ℚ)) this
    simp [newLimiter, hq]
  rw [htokmax] at hbound
  have : ((runAllows (newLimiter R B t) ts).1.count true : ℚ) ≤ ((B.toNat : ℕ) : ℚ) := by
    linarith
  exact_mod_cast this

theorem C9_witness :
    (0 : ℚ) ≤ 0 ∧
    List.Sorted (· ≤ ·) [(0 : ℚ), 1, 2, 3] ∧
    (∀ x ∈ [(0 : ℚ), 1, 2, 3], (0 : ℚ) ≤ x) ∧
    (Limiter.rate ⟨-1, 5, 1/2, 0⟩ ≤ 0) ∧
    (Limiter.tokens ⟨-1, 5, 1/2, 0⟩ < 1) ∧
    (Limiter.lastRefill ⟨-1, 5, 1/2, 0⟩ ≤ 1) ∧
    ((0 : ℤ) ≤ 0) ∧
    (((runAllows (newLimiter 0 2 0) [(0 : ℚ), 1, 2, 3]).1.count true ≤ Int.toNat 2) ∧
     (Limiter.allow ⟨-1, 5, 1/2, 0⟩ 1 = (false, ⟨-1, 5, 1/2, 0⟩)) ∧
     ((runAllows (newLimiter 7 0 0) [(5 : ℚ), 2]).1.count true = 0)) := by
  refine ⟨le_refl 0, by decide, by decide, by norm_num, by norm_num, by norm_num,
    le_refl 0, ?_⟩
  exact C9_degenerate_config 0 7 0 0 2 0 [(0 : ℚ), 1, 2, 3] [(5 : ℚ), 2]
    ⟨-1, 5, 1/2, 0⟩ 1 (le_refl 0) (by decide) (by decide) (by norm_num)
    (by norm_num) (by norm_num) (le_refl 0)

theorem lookupIP_eq_none (c : List (String × LimiterEntry)) (ip : String) :
    lookupIP c ip = none ↔ ip ∉ c.map Prod.fst := by
  induction c with
  | nil => simp [lookupIP]
  | cons p rest ih =>
    by_cases h : p.1 = ip
    · simp [lookupIP, h]
    · simp [lookupIP, h, ih, fun hh : ip = p.1 => h hh.symm]
      intro _ hh
      exact h hh.symm

theorem lookupIP_mem (c : List (String × LimiterEntry)) (ip : String)
    (e : LimiterEntry) (h : lookupIP c ip = some e) : (ip, e) ∈ c := by
  induction c with
  | nil => simp [lookupIP] at h
  | cons p rest ih =>
    by_cases hp : p.1 = ip
    · simp [lookupIP, hp] at h
      subst h
      have hpe : (ip, p.2) = p := by rw [← hp]
      rw [hpe]
      exact List.mem_cons_self p rest
    · simp [lookupIP, hp] at h
      exact List.mem_cons_of_mem p (ih h)

theorem lookup_touch_self (c : List (String × LimiterEntry)) (ip : String) (t : ℚ) :
    lookupIP (touch c ip t) ip =
      (lookupIP c ip).map fun e => { e with lastSeen := t } := by
  induction c with
  | nil => simp [lookupIP, touch]
  | cons p rest ih =>
    by_cases h : p.1 = ip
    · simp [lookupIP, touch, h]
    · simp only [touch, List.map_cons] at *
      simp [lookupIP, h, ih]

theorem lookup_touch_ne (c : List (String × LimiterEntry)) (ip ip' : String)
    (t : ℚ) (h : ip' ≠ ip) :
    lookupIP (touch c ip t) ip' = lookupIP c ip' := by
  induction c with
  | nil => simp [lookupIP, touch]
  | cons p rest ih =>
    by_cases hp : p.1 = ip
    · have hp' : p.1 ≠ ip' := by
        rw [hp]
        exact fun hh => h hh.symm
      have hne : ¬ ip = ip' := fun hh => h hh.symm
      simp only [touch, List.map_cons] at *
      simp [lookupIP, hp, hp', hne, ih]
    · simp only [touch, List.map_cons] at *
      by_cases hq : p.1 = ip'
      · simp [lookupIP, hp, hq, h]
      · simp [lookupIP, hp, hq, h, ih]

theorem touch_map_fst (c : List (String × LimiterEntry)) (ip : String) (t : ℚ) :
    (touch c ip t).map Prod.fst = c.map Prod.fst := by
  unfold touch
  rw [List.map_map]
  refine List.map_congr_left ?_
  intro p _
  by_cases h : p.1 = ip <;> simp [h]

theorem touch_map_limiter (c : List (String × LimiterEntry)) (ip : String) (t : ℚ) :
    (touch c ip t).map (fun p => p.2.limiter) = c.map fun p => p.2.limiter := by
  unfold touch
  rw [List.map_map]
  refine List.map_congr_left ?_
  intro p _
  by_cases h : p.1 = ip <;> simp [h]

theorem mem_touch (c : List (String × LimiterEntry)) (ip : String) (t : ℚ)
    (p : String × LimiterEntry) (hp : p ∈ touch c ip t) :
    ∃ q ∈ c, p.2.limiter = q.2.limiter := by
  unfold touch at hp
  obtain ⟨q, hq, hpq⟩ := List.mem_map.1 hp
  refine ⟨q, hq, ?_⟩
  by_cases h : q.1 = ip <;> simp [h] at hpq <;> rw [← hpq]

theorem inv_get (m : ManagerState) (ip : String) (now : ℚ) (h : Inv m) :
    Inv (getRateLimiterForIP m ip now).2 := by
  obtain ⟨h1, h2, h3⟩ := h
  cases hl : lookupIP m.cache ip with
  | some e =>
    simp only [getRateLimiterForIP, hl]
    refine ⟨?_, ?_, ?_⟩
    · rw [touch_map_fst]
      exact h1
    · rw [touch_map_limiter]
      exact h2
    · intro p hp
      obtain ⟨q, hq, hlim⟩ := mem_touch m.cache ip now p hp
      rw [hlim]
      exact h3 q hq
  | none =>
    simp only [getRateLimiterForIP, hl]
    refine ⟨?_, ?_, ?_⟩
    · simp only [List.map_cons, List.nodup_cons]
      exact ⟨(lookupIP_eq_none m.cache ip).1 hl, h1⟩
    · simp only [List.map_cons, List.nodup_cons]
      refine ⟨?_, h2⟩
      intro hmem
      obtain ⟨p, hp, hlim⟩ := List.mem_map.1 hmem
      exact absurd hlim (Nat.ne_of_lt (h3 p hp))
    · intro p hp
      simp only [List.length_append, List.length_singleton]
      rcases List.mem_cons.1 hp with hph | hpt
      · rw [hph]
        exact Nat.lt_succ_self _
      · exact Nat.lt_succ_of_lt (h3 p hpt)

theorem inv_setCfg (m : ManagerState) (cfg : LimiterConfig) (h : Inv m) :
    Inv (setDefaultLimiterConfig m cfg) := h

theorem inv_cleanup (m : ManagerState) (d now : ℚ) (h : Inv m) :
    Inv (cleanupInactiveLimiters m d now) := by
  obtain ⟨h1, h2, h3⟩ := h
  refine ⟨?_, ?_, ?_⟩
  · exact List.Nodup.sublist (List.Sublist.map _ (List.filter_sublist _)) h1
  · exact List.Nodup.sublist (List.Sublist.map _ (List.filter_sublist _)) h2
  · intro p hp
    exact h3 p (List.mem_of_mem_filter hp)

theorem inv_allow (m : ManagerState) (ip : String) (now : ℚ) (h : Inv m) :
    Inv (allowForIP m ip now).2 := by
  obtain ⟨h1, h2, h3⟩ := inv_get m ip now h
  refine ⟨h1, h2, ?_⟩
  intro p hp
  simp only [allowForIP, List.length_set]
  exact h3 p hp

theorem reachable_inv (m : ManagerState) (h : Reachable m) : Inv m := by
  induction h with
  | init cfg =>
    exact ⟨List.nodup_nil, List.nodup_nil, by intro p hp; simp [newRateLimiterManager] at hp⟩
  | get m ip now _ ih => exact inv_get m ip now ih
  | setCfg m cfg _ ih => exact inv_setCfg m cfg ih
  | cleanup m d now _ ih => exact inv_cleanup m d now ih
  | allow m ip now _ ih => exact inv_allow m ip now ih

/-- C4: `CleanupInactiveLimiters(d)` removes exactly the entries with
`now - lastSeen > d` and keeps exactly those with `now - lastSeen ≤ d`;
with entries last seen 20 minutes and 5 minutes ago, a sweep with a
10-minute threshold removes only the first. -/
theorem C4_cleanup_exact (m : ManagerState) (d now : ℚ) :
    (∀ p, p ∈ (cleanupInactiveLimiters m d now).cache ↔
        p ∈ m.cache ∧ now - p.2.lastSeen ≤ d) ∧
    (cleanupInactiveLimiters
        ⟨⟨3/2, 5⟩, [("10.0.0.1", ⟨0, 0⟩), ("10.0.0.2", ⟨1, 900⟩)],
          [newLimiter (3/2) 5 0, newLimiter (3/2) 5 900]⟩ 600 1200).cache =
      [("10.0.0.2", ⟨1, 900⟩)] := by
  constructor
  · intro p
    simp [cleanupInactiveLimiters, List.mem_filter, not_lt]
  · norm_num [cleanupInactiveLimiters, List.filter]

/-- C5: `SetDefaultLimiterConfig` changes no existing entry and no
existing bucket — the cache and the limiter heap are untouched, and a
later lookup of an existing IP returns its old limiter over the unchanged
heap — while an IP first seen after the call gets a bucket built from the
new configuration. -/
theorem C5_setConfig_no_retro (m : ManagerState) (cfg : LimiterConfig)
    (ip ipNew : String) (now now' : ℚ) (e : LimiterEntry)
    (he : lookupIP m.cache ip = some e) (hnew : lookupIP m.cache ipNew = none) :
    (setDefaultLimiterConfig m cfg).cache = m.cache ∧
    (setDefaultLimiterConfig m cfg).heap = m.heap ∧
    (getRateLimiterForIP (setDefaultLimiterConfig m cfg) ip now).1 = e.limiter ∧
    (getRateLimiterForIP (setDefaultLimiterConfig m cfg) ip now).2.heap = m.heap ∧
    (getRateLimiterForIP (setDefaultLimiterConfig m cfg) ipNew now').2.heap =
      m.heap ++ [newLimiter cfg.requestPerSecond cfg.burst now'] := by
  refine ⟨rfl, rfl, ?_, ?_, ?_⟩
  · simp [getRateLimiterForIP, setDefaultLimiterConfig, he]
  · simp [getRateLimiterForIP, setDefaultLimiterConfig, he]
  · simp [getRateLimiterForIP, setDefaultLimiterConfig, hnew]

theorem C5_witness :
    lookupIP [("10.0.0.1", (⟨0, 0⟩ : LimiterEntry))] "10.0.0.1" = some ⟨0, 0⟩ ∧
    lookupIP [("10.0.0.1", (⟨0, 0⟩ : LimiterEntry))] "10.0.0.2" = none ∧
    (setDefaultLimiterConfig
        ⟨⟨3/2, 5⟩, [("10.0.0.1", ⟨0, 0⟩)], [newLimiter (3/2) 5 0]⟩ ⟨2, 10⟩).heap =
      [newLimiter (3/2) 5 0] ∧
    (getRateLimiterForIP
        (setDefaultLimiterConfig
          ⟨⟨3/2, 5⟩, [("10.0.0.1", ⟨0, 0⟩)], [newLimiter (3/2) 5 0]⟩ ⟨2, 10⟩)
        "10.0.0.1" 7).1 = LimiterEntry.limiter ⟨0, 0⟩ ∧
    (getRateLimiterForIP
        (setDefaultLimiterConfig
          ⟨⟨3/2, 5⟩, [("10.0.0.1", ⟨0, 0⟩)], [newLimiter (3/2) 5 0]⟩ ⟨2, 10⟩)
        "10.0.0.2" 9).2.heap =
      [newLimiter (3/2) 5 0] ++ [newLimiter 2 10 9] := by
  have h := C5_setConfig_no_retro
    ⟨⟨3/2, 5⟩, [("10.0.0.1", ⟨0, 0⟩)], [newLimiter (3/2) 5 0]⟩ ⟨2, 10⟩
    "10.0.0.1" "10.0.0.2" 7 9 ⟨0, 0⟩ (by decide) (by decide)
  exact ⟨by decide, by decide, h.2.1, h.2.2.1, h.2.2.2.2⟩

/-- C6: every `GetRateLimiterForIP(ip)` call leaves an entry for `ip`
whose `lastSeen` equals the call's current time and whose limiter is the
returned one — on the read path as well as the creation path — and the
`lastSeen` of any entry present before the call is not decreased by it,
so `lastSeen` is monotonically non-decreasing while an entry remains in
the registry. -/
theorem C6_lastSeen_updated (m : ManagerState) (ip ip' : String) (now : ℚ)
    (e' : LimiterEntry) (h' : lookupIP m.cache ip' = some e')
    (hmono : e'.lastSeen ≤ now) :
    (∃ e, lookupIP ((getRateLimiterForIP m ip now).2).cache ip = some e ∧
        e.lastSeen = now ∧ e.limiter = (getRateLimiterForIP m ip now).1) ∧
    (∃ e'', lookupIP ((getRateLimiterForIP m ip now).2).cache ip' = some e'' ∧
        e'.lastSeen ≤ e''.lastSeen ∧ e''.limiter = e'.limiter) := by
  constructor
  · cases hl : lookupIP m.cache ip with
    | some e =>
      refine ⟨{ e with lastSeen := now }, ?_, rfl, ?_⟩
      · simp [getRateLimiterForIP, hl, lookup_touch_self]
      · simp [getRateLimiterForIP, hl]
    | none =>
      refine ⟨⟨m.heap.length, now⟩, ?_, rfl, ?_⟩
      · simp [getRateLimiterForIP, hl, lookupIP]
      · simp [getRateLimiterForIP, hl]
  · cases hl : lookupIP m.cache ip with
    | some e =>
      by_cases hip : ip' = ip
      · subst hip
        rw [h'] at hl
        cases hl
        refine ⟨{ e' with lastSeen := now }, ?_, hmono, rfl⟩
        simp [getRateLimiterForIP, h', lookup_touch_self]
      · refine ⟨e', ?_, le_refl _, rfl⟩
        simp [getRateLimiterForIP, hl, lookup_touch_ne m.cache ip ip' now hip]
        exact h'
    | none =>
      by_cases hip : ip' = ip
      · subst hip
        rw [h'] at hl
        cases hl
      · refine ⟨e', ?_, le_refl _, rfl⟩
        have hne : ip ≠ ip' := fun hh => hip hh.symm
        simp [getRateLimiterForIP, hl, lookupIP, hne]
        exact h'

theorem C6_witness :
    lookupIP [("10.0.0.1", (⟨0, 5⟩ : LimiterEntry))] "10.0.0.1" = some ⟨0, 5⟩ ∧
    LimiterEntry.lastSeen ⟨0, 5⟩ ≤ 7 ∧
    ((∃ e, lookupIP ((getRateLimiterForIP
          ⟨⟨3/2, 5⟩, [("10.0.0.1", ⟨0, 5⟩)], [newLimiter (3/2) 5 0]⟩
          "10.0.0.2" 7).2).cache "10.0.0.2" = some e ∧
        e.lastSeen = 7 ∧
        e.limiter = (getRateLimiterForIP
          ⟨⟨3/2, 5⟩, [("10.0.0.1", ⟨0, 5⟩)], [newLimiter (3/2) 5 0]⟩
          "10.0.0.2" 7).1) ∧
     (∃ e'', lookupIP ((getRateLimiterForIP
          ⟨⟨3/2, 5⟩, [("10.0.0.1", ⟨0, 5⟩)], [newLimiter (3/2) 5 0]⟩
          "10.0.0.2" 7).2).cache "10.0.0.1" = some e'' ∧
        LimiterEntry.lastSeen ⟨0, 5⟩ ≤ e''.lastSeen ∧
        e''.limiter = LimiterEntry.limiter ⟨0, 5⟩)) :=
  ⟨by decide, by decide,
    C6_lastSeen_updated
      ⟨⟨3/2, 5⟩, [("10.0.0.1", ⟨0, 5⟩)], [newLimiter (3/2) 5 0]⟩
      "10.0.0.2" "10.0.0.1" 7 ⟨0, 5⟩ (by decide) (by decide)⟩

/-- C7: on an admitted request both middleware variants forward to the
next handler without writing a status; on a denied request
`middleware.RateLimitMiddleware` (and the middleware.go:34-45 variant)
writes 429 and stops, but the middleware.go:99-110 variant merely
constructs the 429 `AppError` value, discards it, and stops without
writing any status — so that variant never sends the 429 response the
claim requires. -/
theorem C7_middleware_status :
    rateLimitMiddleware (fun _ => true) "10.0.0.1" =
      { wroteStatus := none, invokedNext := true } ∧
    rateLimitMiddleware (fun _ => false) "10.0.0.1" =
      { wroteStatus := some statusTooManyRequests, invokedNext := false } ∧
    rateLimitMiddlewarePkg (fun _ => true) "10.0.0.1" =
      { wroteStatus := none, invokedNext := true } ∧
    rateLimitMiddlewarePkg (fun _ => false) "10.0.0.1" =
      { wroteStatus := none, invokedNext := false } ∧
    (newTooManyRequestsError "Too many Requests").code = statusTooManyRequests :=
  ⟨rfl, rfl, rfl, rfl, rfl⟩

theorem lookupRaw_mem (c : List (String × CacheValue)) (ip : String)
    (v : CacheValue) (h : lookupRaw c ip = some v) : (ip, v) ∈ c := by
  induction c with
  | nil => simp [lookupRaw] at h
  | cons p rest ih =>
    by_cases hp : p.1 = ip
    · simp [lookupRaw, hp] at h
      subst h
      have hpe : (ip, p.2) = p := by rw [← hp]
      rw [hpe]
      exact List.mem_cons_self p rest
    · simp [lookupRaw, hp] at h
      exact List.mem_cons_of_mem p (ih h)

theorem sweepRaw_mem (d now : ℚ) :
    ∀ (c c' : List (String × CacheValue)), sweepRaw c d now = some c' →
      ∀ p ∈ c', p ∈ c := by
  intro c
  induction c with
  | nil =>
    intro c' h p hp
    simp [sweepRaw] at h
    subst h
    simp at hp
  | cons q rest ih =>
    intro c' h p hp
    cases hae : asEntry q.2 with
    | none => simp [sweepRaw, hae] at h
    | some e =>
      cases hsw : sweepRaw rest d now with
      | none => simp [sweepRaw, hae, hsw] at h
      | some c3 =>
        simp only [sweepRaw, hae, hsw] at h
        by_cases hc : now - e.lastSeen > d
        · rw [if_pos hc] at h
          have hcc : c' = c3 := (Option.some.inj h).symm
          rw [hcc] at hp
          exact List.mem_cons_of_mem q (ih c3 hsw p hp)
        · rw [if_neg hc] at h
          have hcc : c' = q :: c3 := (Option.some.inj h).symm
          rw [hcc] at hp
          rcases List.mem_cons.1 hp with hh | ht
          · rw [hh]
            exact List.mem_cons_self q rest
          · exact List.mem_cons_of_mem q (ih c3 hsw p ht)

theorem sweepRaw_total (d now : ℚ) :
    ∀ (c : List (String × CacheValue)),
      (∀ p ∈ c, (asEntry p.2).isSome) → (sweepRaw c d now).isSome := by
  intro c
  induction c with
  | nil => intro _; simp [sweepRaw]
  | cons q rest ih =>
    intro hall
    have hq := hall q (List.mem_cons_self q rest)
    cases hae : asEntry q.2 with
    | none => rw [hae] at hq; simp at hq
    | some e =>
      have hrest := ih fun p hp => hall p (List.mem_cons_of_mem q hp)
      cases hsw : sweepRaw rest d now with
      | none => rw [hsw] at hrest; simp at hrest
      | some c3 =>
        simp only [sweepRaw, hae, hsw]
        by_cases hc : now - e.lastSeen > d
        · rw [if_pos hc]
          rfl
        · rw [if_neg hc]
          rfl

theorem raw_reachable_entries (m : RawState) (h : RawReachable m) :
    ∀ p ∈ m.cache, ∃ e, p.2 = CacheValue.entry e := by
  induction h with
  | init cfg => intro p hp; simp at hp
  | get m ip now r hm heq ih =>
    cases hl : lookupRaw m.cache ip with
    | none =>
      simp only [rawGetRateLimiterForIP, hl, Option.some.injEq] at heq
      rw [← heq]
      intro p hp
      rcases List.mem_cons.1 hp with hh | ht
      · exact ⟨⟨m.heap.length, now⟩, by rw [hh]⟩
      · exact ih p ht
    | some v =>
      cases hae : asEntry v with
      | none => simp [rawGetRateLimiterForIP, hl, hae] at heq
      | some e =>
        simp only [rawGetRateLimiterForIP, hl, hae, Option.some.injEq] at heq
        rw [← heq]
        intro p hp
        obtain ⟨q, hq, hpq⟩ := List.mem_map.1 hp
        by_cases hqip : q.1 = ip
        · rw [if_pos hqip] at hpq
          exact ⟨{ e with lastSeen := now }, by rw [← hpq]⟩
        · rw [if_neg hqip] at hpq
          rw [← hpq]
          exact ih q hq
  | setCfg m cfg hm ih => exact ih
  | cleanup m d now m' hm heq ih =>
    cases hsw : sweepRaw m.cache d now with
    | none => simp [rawCleanupInactiveLimiters, hsw] at heq
    | some c =>
      simp only [rawCleanupInactiveLimiters, hsw, Option.some.injEq] at heq
      rw [← heq]
      intro p hp
      exact ih p (sweepRaw_mem d now m.cache c hsw p hp)

/-- C10: on every reachable state of the manager, every cache value is a
`*LimiterEntry`, so the runtime type assertions in `GetRateLimiterForIP`
and `CleanupInactiveLimiters` succeed (neither operation panics). -/
theorem C10_assertions_safe (m : RawState) (ip : String) (d now : ℚ)
    (h : RawReachable m) :
    (rawGetRateLimiterForIP m ip now).isSome ∧
    (rawCleanupInactiveLimiters m d now).isSome := by
  have hinv := raw_reachable_entries m h
  constructor
  · unfold rawGetRateLimiterForIP
    cases hl : lookupRaw m.cache ip with
    | none => rfl
    | some v =>
      obtain ⟨e, he⟩ := hinv (ip, v) (lookupRaw_mem m.cache ip v hl)
      simp only at he
      rw [he]
      rfl
  · unfold rawCleanupInactiveLimiters
    have htot := sweepRaw_total d now m.cache fun p hp => by
      obtain ⟨e, he⟩ := hinv p hp
      rw [he]
      rfl
    cases hsw : sweepRaw m.cache d now with
    | none => rw [hsw] at htot; simp at htot
    | some c => rfl

theorem C10_witness :
    (rawGetRateLimiterForIP
      ⟨⟨3/2, 5⟩, [("10.0.0.1", CacheValue.entry ⟨0, 0⟩)], [newLimiter (3/2) 5 0]⟩
      "10.0.0.1" 5).isSome ∧
    (rawCleanupInactiveLimiters
      ⟨⟨3/2, 5⟩, [("10.0.0.1", CacheValue.entry ⟨0, 0⟩)], [newLimiter (3/2) 5 0]⟩
      600 5).isSome :=
  C10_assertions_safe _ "10.0.0.1" 600 5
    (RawReachable.get ⟨⟨3/2, 5⟩, [], []⟩ "10.0.0.1" 0
      (0, ⟨⟨3/2, 5⟩, [("10.0.0.1", CacheValue.entry ⟨0, 0⟩)], [newLimiter (3/2) 5 0]⟩)
      (RawReachable.init ⟨3/2, 5⟩) rfl)

theorem race_inv {n : ℕ} (s : RaceState n) (h : RaceReach s) :
    ∀ (i : Fin n) (l : ℕ), s.threads i = TPC.done l → s.reg = some l := by
  induction h with
  | init => intro i l hi; simp [raceInit] at hi
  | step s s' hr hstep ih =>
    cases hstep with
    | loadHit i l hi hreg =>
      intro j l' hj
      simp only [Function.update_apply] at hj
      by_cases hji : j = i
      · rw [if_pos hji] at hj
        cases hj
        exact hreg
      · rw [if_neg hji] at hj
        exact ih j l' hj
    | loadMiss i hi hreg =>
      intro j l' hj
      simp only [Function.update_apply] at hj
      by_cases hji : j = i
      · rw [if_pos hji] at hj
        cases hj
      · rw [if_neg hji] at hj
        have := ih j l' hj
        rw [hreg] at this
        cases this
    | storeWin i k hi hreg =>
      intro j l' hj
      simp only [Function.update_apply] at hj
      by_cases hji : j = i
      · rw [if_pos hji] at hj
        cases hj
        rfl
      · rw [if_neg hji] at hj
        have := ih j l' hj
        rw [hreg] at this
        cases this
    | storeLose i k l hi hreg =>
      intro j l' hj
      simp only [Function.update_apply] at hj
      by_cases hji : j = i
      · rw [if_pos hji] at hj
        cases hj
        exact hreg
      · rw [if_neg hji] at hj
        exact ih j l' hj

/-- C1: in every interleaving of N goroutines concurrently calling
`GetRateLimiterForIP` for one unseen IP, once all have returned, the
registry holds a single limiter and every goroutine got that same
limiter; and N immediate `Allow()` calls against one fresh bucket of
capacity `B` admit exactly `min N B`. -/
theorem C1_one_bucket_race (n N : ℕ) (s : RaceState n) (R t : ℚ) (B : ℤ)
    (hn : 0 < n) (hs : RaceReach s)
    (hdone : ∀ i, ∃ l, s.threads i = TPC.done l) (hB : 0 ≤ B) :
    (∃ l, s.reg = some l ∧ ∀ i, s.threads i = TPC.done l) ∧
    (allowRepeat (newLimiter R B t) t N).1.count true = min N B.toNat := by
  constructor
  · obtain ⟨l0, hl0⟩ := hdone ⟨0, hn⟩
    refine ⟨l0, race_inv s hs ⟨0, hn⟩ l0 hl0, ?_⟩
    intro i
    obtain ⟨li, hli⟩ := hdone i
    have h1 := race_inv s hs i li hli
    have h2 := race_inv s hs ⟨0, hn⟩ l0 hl0
    rw [h2] at h1
    cases h1
    exact hli
  · have hc : ((B.toNat : ℕ) : ℚ) = (B : ℚ) := by
      exact_mod_cast Int.toNat_of_nonneg hB
    rw [allowRepeat_immediate t N B.toNat (newLimiter R B t)
      (by simp [newLimiter, hc]) rfl (by simp [newLimiter, hc])]
    simpa using count_replicate_append (min N B.toNat) (N - B.toNat)

theorem C1_witness :
    0 < 2 ∧
    (∀ i : Fin 2, ∃ l,
      RaceState.threads
        { reg := some 0, nextId := 1,
          threads := Function.update (Function.update (Function.update
            (raceInit 2).threads 0 (TPC.missed 0)) 0 (TPC.done 0)) 1 (TPC.done 0) }
        i = TPC.done l) ∧
    (0 : ℤ) ≤ 5 ∧
    ((∃ l,
        RaceState.reg
          { reg := some 0, nextId := 1,
            threads := Function.update (Function.update (Function.update
              (raceInit 2).threads 0 (TPC.missed 0)) 0 (TPC.done 0)) 1 (TPC.done 0) }
          = some l ∧
        ∀ i : Fin 2,
          RaceState.threads
            { reg := some 0, nextId := 1,
              threads := Function.update (Function.update (Function.update
                (raceInit 2).threads 0 (TPC.missed 0)) 0 (TPC.done 0)) 1 (TPC.done 0) }
            i = TPC.done l) ∧
      (allowRepeat (newLimiter (3/2) 5 0) 0 7).1.count true = min 7 (Int.toNat 5)) := by
  have hstep1 : RaceStep (n := 2) (raceInit 2)
      { reg := none, nextId := 1,
        threads := Function.update (raceInit 2).threads 0 (TPC.missed 0) } :=
    RaceStep.loadMiss (raceInit 2) 0 rfl rfl
  have hstep2 : RaceStep (n := 2)
      { reg := none, nextId := 1,
        threads := Function.update (raceInit 2).threads 0 (TPC.missed 0) }
      { reg := some 0, nextId := 1,
        threads := Function.update (Function.update
          (raceInit 2).threads 0 (TPC.missed 0)) 0 (TPC.done 0) } :=
    RaceStep.storeWin _ 0 0 (by simp [raceInit]) rfl
  have hstep3 : RaceStep (n := 2)
      { reg := some 0, nextId := 1,
        threads := Function.update (Function.update
          (raceInit 2).threads 0 (TPC.missed 0)) 0 (TPC.done 0) }
      { reg := some 0, nextId := 1,
        threads := Function.update (Function.update (Function.update
          (raceInit 2).threads 0 (TPC.missed 0)) 0 (TPC.done 0)) 1 (TPC.done 0) } :=
    RaceStep.loadHit _ 1 0 (by simp [raceInit, Function.update_apply]) rfl
  have hreach := RaceReach.step _ _
    (RaceReach.step _ _ (RaceReach.step _ _ RaceReach.init hstep1) hstep2) hstep3
  have hdone : ∀ i : Fin 2, ∃ l,
      RaceState.threads
        { reg := some 0, nextId := 1,
          threads := Function.update (Function.update (Function.update
            (raceInit 2).threads 0 (TPC.missed 0)) 0 (TPC.done 0)) 1 (TPC.done 0) }
        i = TPC.done l := by
    intro i
    fin_cases i
    · exact ⟨0, by simp [Function.update_apply]⟩
    · exact ⟨0, by simp [Function.update_apply]⟩
  exact ⟨by norm_num, hdone, by decide,
    C1_one_bucket_race 2 7 _ (3/2) 0 5 (by norm_num) hreach hdone (by decide)⟩

theorem get_present (m : ManagerState) (ip : String) (now : ℚ)
    (e : LimiterEntry) (he : lookupIP m.cache ip = some e) :
    getRateLimiterForIP m ip now =
      (e.limiter, { m with cache := touch m.cache ip now }) := by
  simp [getRateLimiterForIP, he]

theorem get_absent (m : ManagerState) (ip : String) (now : ℚ)
    (he : lookupIP m.cache ip = none) :
    getRateLimiterForIP m ip now =
      (m.heap.length,
       { m with
         heap := m.heap ++
           [newLimiter m.defaultConfig.requestPerSecond m.defaultConfig.burst now],
         cache := (ip, ⟨m.heap.length, now⟩) :: m.cache }) := by
  simp [getRateLimiterForIP, he]

theorem limiter_lt_of_lookup (m : ManagerState) (ip : String) (e : LimiterEntry)
    (hInv : Inv m) (he : lookupIP m.cache ip = some e) :
    e.limiter < m.heap.length :=
  hInv.2.2 (ip, e) (lookupIP_mem m.cache ip e he)

theorem limiter_ne_of_lookup (m : ManagerState) (ip1 ip2 : String)
    (e1 e2 : LimiterEntry) (hInv : Inv m) (hne : ip1 ≠ ip2)
    (h1 : lookupIP m.cache ip1 = some e1) (h2 : lookupIP m.cache ip2 = some e2) :
    e1.limiter ≠ e2.limiter := by
  intro heq
  have hm1 := lookupIP_mem m.cache ip1 e1 h1
  have hm2 := lookupIP_mem m.cache ip2 e2 h2
  have := List.inj_on_of_nodup_map hInv.2.1 hm1 hm2 heq
  exact hne (congrArg Prod.fst this)

theorem get_distinct (m : ManagerState) (ip1 ip2 : String) (t1 t2 : ℚ)
    (hInv : Inv m) (hne : ip1 ≠ ip2) :
    (getRateLimiterForIP m ip1 t1).1 ≠
      (getRateLimiterForIP (getRateLimiterForIP m ip1 t1).2 ip2 t2).1 := by
  have hne2 : ip2 ≠ ip1 := fun hh => hne hh.symm
  cases he1 : lookupIP m.cache ip1 with
  | some e1 =>
    rw [get_present m ip1 t1 e1 he1]
    cases he2 : lookupIP m.cache ip2 with
    | some e2 =>
      have he2t : lookupIP (touch m.cache ip1 t1) ip2 = some e2 := by
        rw [lookup_touch_ne m.cache ip1 ip2 t1 hne2]
        exact he2
      rw [get_present { m with cache := touch m.cache ip1 t1 } ip2 t2 e2 he2t]
      exact limiter_ne_of_lookup m ip1 ip2 e1 e2 hInv hne he1 he2
    | none =>
      have he2t : lookupIP (touch m.cache ip1 t1) ip2 = none := by
        rw [lookup_touch_ne m.cache ip1 ip2 t1 hne2]
        exact he2
      rw [get_absent { m with cache := touch m.cache ip1 t1 } ip2 t2 he2t]
      exact Nat.ne_of_lt (limiter_lt_of_lookup m ip1 e1 hInv he1)
  | none =>
    rw [get_absent m ip1 t1 he1]
    cases he2 : lookupIP m.cache ip2 with
    | some e2 =>
      have he2c : lookupIP ((ip1, (⟨m.heap.length, t1⟩ : LimiterEntry)) :: m.cache)
          ip2 = some e2 := by
        simp only [lookupIP, if_neg hne]
        exact he2
      rw [get_present _ ip2 t2 e2 he2c]
      exact (Nat.ne_of_lt (limiter_lt_of_lookup m ip2 e2 hInv he2)).symm
    | none =>
      have he2c : lookupIP ((ip1, (⟨m.heap.length, t1⟩ : LimiterEntry)) :: m.cache)
          ip2 = none := by
        simp only [lookupIP, if_neg hne]
        exact he2
      rw [get_absent _ ip2 t2 he2c]
      simp [List.length_append]

theorem allowForIP_present_eq (m : ManagerState) (ip : String) (t : ℚ)
    (e : LimiterEntry) (he : lookupIP m.cache ip = some e) :
    allowForIP m ip t =
      (((m.heap.getD e.limiter (newLimiter 0 0 0)).allow t).1,
       { m with
         cache := touch m.cache ip t,
         heap := m.heap.set e.limiter
           ((m.heap.getD e.limiter (newLimiter 0 0 0)).allow t).2 }) := by
  unfold allowForIP
  rw [get_present m ip t e he]

theorem allowForIP_absent_eq (m : ManagerState) (ip : String) (t : ℚ)
    (he : lookupIP m.cache ip = none) :
    allowForIP m ip t =
      (((newLimiter m.defaultConfig.requestPerSecond m.defaultConfig.burst t).allow
          t).1,
       { m with
         cache := (ip, ⟨m.heap.length, t⟩) :: m.cache,
         heap := (m.heap ++ [newLimiter m.defaultConfig.requestPerSecond
             m.defaultConfig.burst t]).set m.heap.length
           ((newLimiter m.defaultConfig.requestPerSecond m.defaultConfig.burst
               t).allow t).2 }) := by
  have hgd : (m.heap ++ [newLimiter m.defaultConfig.requestPerSecond
      m.defaultConfig.burst t]).getD m.heap.length (newLimiter 0 0 0) =
      newLimiter m.defaultConfig.requestPerSecond m.defaultConfig.burst t := by
    rw [List.getD_eq_getElem?_getD, List.getElem?_concat_length]
    rfl
  unfold allowForIP
  rw [get_absent m ip t he]
  simp only [hgd]

theorem allowForIP_cfg (m : ManagerState) (ip : String) (t : ℚ) :
    (allowForIP m ip t).2.defaultConfig = m.defaultConfig := by
  cases he : lookupIP m.cache ip with
  | some e => rw [allowForIP_present_eq m ip t e he]
  | none => rw [allowForIP_absent_eq m ip t he]

theorem allowForIP_lookup_ne (m : ManagerState) (ip1 ip2 : String) (t : ℚ)
    (hne : ip1 ≠ ip2) :
    lookupIP (allowForIP m ip1 t).2.cache ip2 = lookupIP m.cache ip2 := by
  have hne2 : ip2 ≠ ip1 := fun hh => hne hh.symm
  cases he1 : lookupIP m.cache ip1 with
  | some e1 =>
    rw [allowForIP_present_eq m ip1 t e1 he1]
    exact lookup_touch_ne m.cache ip1 ip2 t hne2
  | none =>
    rw [allowForIP_absent_eq m ip1 t he1]
    show lookupIP ((ip1, (⟨m.heap.length, t⟩ : LimiterEntry)) :: m.cache) ip2 = _
    simp only [lookupIP, if_neg hne]

theorem allowForIP_heap_frame (m : ManagerState) (ip1 ip2 : String) (t : ℚ)
    (e2 : LimiterEntry) (hInv : Inv m) (hne : ip1 ≠ ip2)
    (he2 : lookupIP m.cache ip2 = some e2) :
    (allowForIP m ip1 t).2.heap.getD e2.limiter (newLimiter 0 0 0) =
      m.heap.getD e2.limiter (newLimiter 0 0 0) := by
  cases he1 : lookupIP m.cache ip1 with
  | some e1 =>
    rw [allowForIP_present_eq m ip1 t e1 he1]
    have hne12 := limiter_ne_of_lookup m ip1 ip2 e1 e2 hInv hne he1 he2
    show (m.heap.set e1.limiter _).getD e2.limiter _ = _
    rw [List.getD_eq_getElem?_getD, List.getElem?_set_ne hne12,
      List.getD_eq_getElem?_getD]
  | none =>
    rw [allowForIP_absent_eq m ip1 t he1]
    have hlt := limiter_lt_of_lookup m ip2 e2 hInv he2
    show ((m.heap ++ _).set m.heap.length _).getD e2.limiter _ = _
    rw [List.getD_eq_getElem?_getD, List.getElem?_set_ne (Nat.ne_of_lt hlt).symm,
      List.getElem?_append_left hlt, List.getD_eq_getElem?_getD]

theorem allowSeq_frame (ip1 ip2 : String) (e2 : LimiterEntry) :
    ∀ (ts : List ℚ) (m : ManagerState), Inv m → ip1 ≠ ip2 →
      lookupIP m.cache ip2 = some e2 →
      lookupIP (allowSeq m ip1 ts).cache ip2 = some e2 ∧
      (allowSeq m ip1 ts).heap.getD e2.limiter (newLimiter 0 0 0) =
        m.heap.getD e2.limiter (newLimiter 0 0 0) := by
  intro ts
  induction ts with
  | nil => intro m _ _ he2; exact ⟨he2, rfl⟩
  | cons t ts ih =>
    intro m hInv hne he2
    have he2' : lookupIP (allowForIP m ip1 t).2.cache ip2 = some e2 := by
      rw [allowForIP_lookup_ne m ip1 ip2 t hne]
      exact he2
    have hstep := allowForIP_heap_frame m ip1 ip2 t e2 hInv hne he2
    have hrec := ih (allowForIP m ip1 t).2 (inv_allow m ip1 t hInv) hne he2'
    refine ⟨hrec.1, ?_⟩
    show (allowSeq (allowForIP m ip1 t).2 ip1 ts).heap.getD e2.limiter _ = _
    rw [hrec.2, hstep]

theorem allowRunN_cons (m : ManagerState) (ip : String) (t : ℚ) (n : ℕ) :
    allowRunN m ip t (n + 1) =
      ((allowForIP m ip t).1 :: (allowRunN (allowForIP m ip t).2 ip t n).1,
       (allowRunN (allowForIP m ip t).2 ip t n).2) := rfl

theorem allowRunN_inv (ip : String) (t : ℚ) :
    ∀ (n : ℕ) (m : ManagerState), Inv m → Inv (allowRunN m ip t n).2 := by
  intro n
  induction n with
  | zero => intro m h; exact h
  | succ n ih =>
    intro m h
    rw [allowRunN_cons]
    exact ih (allowForIP m ip t).2 (inv_allow m ip t h)

theorem allowRunN_cfg (ip : String) (t : ℚ) :
    ∀ (n : ℕ) (m : ManagerState),
      (allowRunN m ip t n).2.defaultConfig = m.defaultConfig := by
  intro n
  induction n with
  | zero => intro m; rfl
  | succ n ih =>
    intro m
    rw [allowRunN_cons]
    show (allowRunN (allowForIP m ip t).2 ip t n).2.defaultConfig = _
    rw [ih (allowForIP m ip t).2, allowForIP_cfg]

theorem allowRunN_lookup_ne (ip1 ip2 : String) (t : ℚ) (hne : ip1 ≠ ip2) :
    ∀ (n : ℕ) (m : ManagerState),
      lookupIP (allowRunN m ip1 t n).2.cache ip2 = lookupIP m.cache ip2 := by
  intro n
  induction n with
  | zero => intro m; rfl
  | succ n ih =>
    intro m
    rw [allowRunN_cons]
    show lookupIP (allowRunN (allowForIP m ip1 t).2 ip1 t n).2.cache ip2 = _
    rw [ih (allowForIP m ip1 t).2, allowForIP_lookup_ne m ip1 ip2 t hne]

theorem allowRunN_trace (ip : String) (t : ℚ) :
    ∀ (n : ℕ) (m : ManagerState) (e : LimiterEntry), Inv m →
      lookupIP m.cache ip = some e →
      (allowRunN m ip t n).1 =
        (allowRepeat (m.heap.getD e.limiter (newLimiter 0 0 0)) t n).1 := by
  intro n
  induction n with
  | zero => intro m e _ _; rfl
  | succ n ih =>
    intro m e hInv he
    have heqA := allowForIP_present_eq m ip t e he
    have hfst : (allowForIP m ip t).1 =
        ((m.heap.getD e.limiter (newLimiter 0 0 0)).allow t).1 := by rw [heqA]
    have he1 : lookupIP (allowForIP m ip t).2.cache ip =
        some { e with lastSeen := t } := by
      rw [heqA]
      show lookupIP (touch m.cache ip t) ip = _
      rw [lookup_touch_self, he]
      rfl
    have hlt := limiter_lt_of_lookup m ip e hInv he
    have hb1 : (allowForIP m ip t).2.heap.getD e.limiter (newLimiter 0 0 0) =
        ((m.heap.getD e.limiter (newLimiter 0 0 0)).allow t).2 := by
      rw [heqA]
      show (m.heap.set e.limiter _).getD e.limiter _ = _
      rw [List.getD_eq_getElem?_getD, List.getElem?_set_self hlt]
      rfl
    have hrec := ih (allowForIP m ip t).2 { e with lastSeen := t }
      (inv_allow m ip t hInv) he1
    rw [allowRunN_cons]
    show (allowForIP m ip t).1 :: (allowRunN (allowForIP m ip t).2 ip t n).1 =
      ((m.heap.getD e.limiter (newLimiter 0 0 0)).allow t).1 ::
        (allowRepeat ((m.heap.getD e.limiter (newLimiter 0 0 0)).allow t).2 t n).1
    rw [hfst, hrec]
    show _ :: (allowRepeat ((allowForIP m ip t).2.heap.getD e.limiter
        (newLimiter 0 0 0)) t n).1 = _
    rw [hb1]

theorem allowRunN_fresh (ip : String) (t : ℚ) (n : ℕ) (m : ManagerState)
    (hInv : Inv m) (he : lookupIP m.cache ip = none) :
    (allowRunN m ip t (n + 1)).1 =
      (allowRepeat (newLimiter m.defaultConfig.requestPerSecond
        m.defaultConfig.burst t) t (n + 1)).1 := by
  have heqA := allowForIP_absent_eq m ip t he
  have hfst : (allowForIP m ip t).1 =
      ((newLimiter m.defaultConfig.requestPerSecond m.defaultConfig.burst
        t).allow t).1 := by rw [heqA]
  have he1 : lookupIP (allowForIP m ip t).2.cache ip =
      some ⟨m.heap.length, t⟩ := by
    rw [heqA]
    show lookupIP ((ip, (⟨m.heap.length, t⟩ : LimiterEntry)) :: m.cache) ip = _
    simp [lookupIP]
  have hb1 : (allowForIP m ip t).2.heap.getD m.heap.length (newLimiter 0 0 0) =
      ((newLimiter m.defaultConfig.requestPerSecond m.defaultConfig.burst
        t).allow t).2 := by
    rw [heqA]
    show ((m.heap ++ _).set m.heap.length _).getD m.heap.length _ = _
    rw [List.getD_eq_getElem?_getD, List.getElem?_set_self (by simp)]
    rfl
  have hrec := allowRunN_trace ip t n (allowForIP m ip t).2 ⟨m.heap.length, t⟩
    (inv_allow m ip t hInv) he1
  rw [allowRunN_cons]
  show (allowForIP m ip t).1 :: (allowRunN (allowForIP m ip t).2 ip t n).1 =
    ((newLimiter m.defaultConfig.requestPerSecond m.defaultConfig.burst
        t).allow t).1 ::
      (allowRepeat ((newLimiter m.defaultConfig.requestPerSecond
        m.defaultConfig.burst t).allow t).2 t n).1
  rw [hfst, hrec]
  show _ :: (allowRepeat ((allowForIP m ip t).2.heap.getD m.heap.length
      (newLimiter 0 0 0)) t n).1 = _
  rw [hb1]

theorem allowRunN_fresh_all_true (ip : String) (t : ℚ) (m : ManagerState)
    (hInv : Inv m) (he : lookupIP m.cache ip = none)
    (hB : 0 < m.defaultConfig.burst) :
    (allowRunN m ip t m.defaultConfig.burst.toNat).1 =
      List.replicate m.defaultConfig.burst.toNat true := by
  obtain ⟨k, hk⟩ : ∃ k, m.defaultConfig.burst.toNat = k + 1 :=
    ⟨m.defaultConfig.burst.toNat - 1, by omega⟩
  have hc : ((m.defaultConfig.burst.toNat : ℕ) : ℚ) =
      ((m.defaultConfig.burst : ℤ) : ℚ) := by
    exact_mod_cast Int.toNat_of_nonneg (le_of_lt hB)
  rw [hk, allowRunN_fresh ip t k m hInv he,
    allowRepeat_immediate t (k + 1) m.defaultConfig.burst.toNat
      (newLimiter m.defaultConfig.requestPerSecond m.defaultConfig.burst t)
      (by simp [newLimiter, hc]) rfl (by simp [newLimiter, hc])]
  simp [hk]

/-- C8: for distinct IPs, the second `GetRateLimiterForIP` returns a
limiter pointer different from the first's; any sequence of `Allow(ip1)`
calls leaves ip2's entry and ip2's bucket untouched; and from a state
where both IPs are unseen and the configured burst is positive, each IP's
burst-many immediate requests are all admitted independently. -/
theorem C8_per_ip_isolation (m : ManagerState) (ip1 ip2 : String)
    (t1 t2 : ℚ) (ts : List ℚ) (e2 : LimiterEntry)
    (hre : Reachable m) (hne : ip1 ≠ ip2) :
    ((getRateLimiterForIP m ip1 t1).1 ≠
       (getRateLimiterForIP (getRateLimiterForIP m ip1 t1).2 ip2 t2).1) ∧
    (lookupIP m.cache ip2 = some e2 →
      lookupIP (allowSeq m ip1 ts).cache ip2 = some e2 ∧
      (allowSeq m ip1 ts).heap.getD e2.limiter (newLimiter 0 0 0) =
        m.heap.getD e2.limiter (newLimiter 0 0 0)) ∧
    (lookupIP m.cache ip1 = none → lookupIP m.cache ip2 = none →
      0 < m.defaultConfig.burst →
      (allowRunN m ip1 t1 m.defaultConfig.burst.toNat).1 =
        List.replicate m.defaultConfig.burst.toNat true ∧
      (allowRunN (allowRunN m ip1 t1 m.defaultConfig.burst.toNat).2 ip2 t2
          m.defaultConfig.burst.toNat).1 =
        List.replicate m.defaultConfig.burst.toNat true) := by
  have hInv := reachable_inv m hre
  refine ⟨get_distinct m ip1 ip2 t1 t2 hInv hne, ?_, ?_⟩
  · intro he2
    exact allowSeq_frame ip1 ip2 e2 ts m hInv hne he2
  · intro h1 h2 hB
    refine ⟨allowRunN_fresh_all_true ip1 t1 m hInv h1 hB, ?_⟩
    have hInv1 := allowRunN_inv ip1 t1 m.defaultConfig.burst.toNat m hInv
    have hlook1 :=
      allowRunN_lookup_ne ip1 ip2 t1 hne m.defaultConfig.burst.toNat m
    have hcfg1 := allowRunN_cfg ip1 t1 m.defaultConfig.burst.toNat m
    have hrun2 := allowRunN_fresh_all_true ip2 t2
      (allowRunN m ip1 t1 m.defaultConfig.burst.toNat).2 hInv1
      (by rw [hlook1]; exact h2) (by rw [hcfg1]; exact hB)
    rw [hcfg1] at hrun2
    exact hrun2

theorem C8_witness :
    Reachable
      (getRateLimiterForIP (newRateLimiterManager ⟨3/2, 5⟩) "5.6.7.8" 0).2 ∧
    "1.2.3.4" ≠ "5.6.7.8" ∧
    (((getRateLimiterForIP
        (getRateLimiterForIP (newRateLimiterManager ⟨3/2, 5⟩) "5.6.7.8" 0).2
        "1.2.3.4" 1).1 ≠
      (getRateLimiterForIP
        (getRateLimiterForIP
          (getRateLimiterForIP (newRateLimiterManager ⟨3/2, 5⟩) "5.6.7.8" 0).2
          "1.2.3.4" 1).2 "5.6.7.8" 2).1) ∧
     (lookupIP (getRateLimiterForIP (newRateLimiterManager ⟨3/2, 5⟩)
          "5.6.7.8" 0).2.cache "5.6.7.8" = some ⟨0, 0⟩ →
       lookupIP (allowSeq (getRateLimiterForIP (newRateLimiterManager ⟨3/2, 5⟩)
           "5.6.7.8" 0).2 "1.2.3.4" [1, 1, 1]).cache "5.6.7.8" = some ⟨0, 0⟩ ∧
       (allowSeq (getRateLimiterForIP (newRateLimiterManager ⟨3/2, 5⟩)
           "5.6.7.8" 0).2 "1.2.3.4" [1, 1, 1]).heap.getD
           (LimiterEntry.limiter ⟨0, 0⟩) (newLimiter 0 0 0) =
         (getRateLimiterForIP (newRateLimiterManager ⟨3/2, 5⟩)
           "5.6.7.8" 0).2.heap.getD (LimiterEntry.limiter ⟨0, 0⟩)
           (newLimiter 0 0 0)) ∧
     (lookupIP (getRateLimiterForIP (newRateLimiterManager ⟨3/2, 5⟩)
          "5.6.7.8" 0).2.cache "1.2.3.4" = none →
       lookupIP (getRateLimiterForIP (newRateLimiterManager ⟨3/2, 5⟩)
          "5.6.7.8" 0).2.cache "5.6.7.8" = none →
       0 < LimiterConfig.burst ⟨3/2, 5⟩ →
       (allowRunN (getRateLimiterForIP (newRateLimiterManager ⟨3/2, 5⟩)
           "5.6.7.8" 0).2 "1.2.3.4" 1 (Int.toNat 5)).1 =
         List.replicate (Int.toNat 5) true ∧
       (allowRunN (allowRunN (getRateLimiterForIP
             (newRateLimiterManager ⟨3/2, 5⟩) "5.6.7.8" 0).2
           "1.2.3.4" 1 (Int.toNat 5)).2 "5.6.7.8" 2 (Int.toNat 5)).1 =
         List.replicate (Int.toNat 5) true)) :=
  ⟨Reachable.get (newRateLimiterManager ⟨3/2, 5⟩) "5.6.7.8" 0
      (Reachable.init ⟨3/2, 5⟩),
   by decide,
   C8_per_ip_isolation _ "1.2.3.4" "5.6.7.8" 1 2 [1, 1, 1] ⟨0, 0⟩
     (Reachable.get (newRateLimiterManager ⟨3/2, 5⟩) "5.6.7.8" 0
       (Reachable.init ⟨3/2, 5⟩))
     (by decide)⟩

end StoreWatches
